import Mathlib

/-!
Verification development for the cxxforth Forth system (cxxforth.cpp by
Kristopher Johnson).

The repository contains several revisions of the literate source
`cxxforth.cpp` / `cxxforth.cpp.md`.  Most kernel functions are identical
across revisions; where they differ we embed both variants and say so in
the doc comment:

* the "V1" revision: `doColon` saves the instruction pointer on the
  return stack, `WORD` matches the delimiter exactly, `PARSE` returns
  what it has when the delimiter is missing, `;` compiles only `EXIT`;
* the "V2" revision (the one rendered as `cxxforth.cpp.md`): `WORD`
  treats any C whitespace as a delimiter when the delimiter is a space
  and consumes the trailing delimiter, `PARSE` aborts when the delimiter
  is missing and consumes it, `;` also compiles the `(;)` marker.

Modelling conventions:

* `Cell` (C++ `uintptr_t`, 64-bit) is `Nat` with explicit wrap-around
  `% 2 ^ 64` exactly where the C++ unsigned arithmetic wraps.
* the data space is a cell array `mem : List Cell` together with a byte
  cursor `dataPointer : Int`, measured relative to the base of the
  `dataSpace` array (the base is assumed cell-aligned, so the C++ check
  `CELL(dataPointer) % CellSize` becomes `dataPointer % 8`); pointer
  arithmetic `CAddr + Cell` is modelled as adding the signed value of
  the cell, which is what the wrapped unsigned addition computes;
* an execution token (xt) is the index of its entry in the
  `definitions` list (the C++ uses the entry's address; entries are
  never moved or deleted, so indices are stable handles);
* C++ exceptions are `Except` errors carrying the global state at the
  throw point (`AbortException` is `Err.abortEx`, other exceptions such
  as the `std::runtime_error` thrown by `EXIT` are `Err.fatal`);
* loops are driven by explicit fuel; running out of fuel is the error
  `Err.noFuel`, never a result;
* the machine state carries a ghost field `log` recording every xt
  passed to `Definition::execute`, used to state which xts are executed;
* stdout is a ghost list of strings `out`; each `cr()` is a `"\n"`
  appended to the preceding text.
-/

namespace Cxxforth

/-- Cell is the basic Forth type, wide enough for a pointer (64-bit here). -/
abbrev Cell := Nat

/-- Number of bits in a cell (`uintptr_t` on a 64-bit platform). -/
def cellBits : Nat := 64

/-- Modulus of cell arithmetic: 2 ^ 64. -/
def cellMod : Nat := 2 ^ cellBits

/-- Size of a cell in bytes (`sizeof(Cell)`). -/
def CellSize : Nat := 8

/-- CXXFORTH_DATASPACE_SIZE = 16 * 1024 * sizeof(Cell) bytes. -/
def dataSpaceSize : Nat := 16 * 1024 * CellSize

/-- CXXFORTH_DSTACK_COUNT: capacity of the data stack in cells. -/
def dStackCount : Nat := 256

/-- CXXFORTH_RSTACK_COUNT: capacity of the return stack in cells. -/
def rStackCount : Nat := 256

/-- Forth FALSE flag: all bits clear. -/
def False' : Cell := 0

/-- Forth TRUE flag: all bits set (`~False`, i.e. 2^64 - 1). -/
def True' : Cell := cellMod - 1

/-- Signed view of a cell (`intptr_t` reading of the same bit pattern). -/
def toSigned (x : Cell) : Int :=
  if x < 2 ^ (cellBits - 1) then (x : Int) else (x : Int) - (cellMod : Int)

/-- Cell holding the two's-complement bit pattern of an integer. -/
def ofInt (i : Int) : Cell := (i % (cellMod : Int)).toNat

/-- ASCII-only upper-case folding, as `std::toupper` behaves on bytes in
the C locale: only the bytes of `a`..`z` change. -/
def toupper (c : Nat) : Nat := if 97 ≤ c ∧ c ≤ 122 then c - 32 else c

/-- C `isspace` on a byte in the C locale: space, tab, newline, vertical
tab, form feed, carriage return. -/
def isspaceB (c : Nat) : Bool :=
  c == 32 || c == 9 || c == 10 || c == 11 || c == 12 || c == 13

/-- Length of the maximal prefix of a list satisfying `p` (the scan
position reached by a `while (pos < size && p(buf[pos])) ++pos;` loop). -/
def countLeading (p : Nat → Bool) : List Nat → Nat
  | [] => 0
  | c :: cs => if p c then countLeading p cs + 1 else 0

/-- Bytes of a Lean string, for writing concrete buffers conveniently. -/
def strBytes (s : String) : List Nat := s.data.map Char.toNat

/-- Lean string from a list of bytes (`std::string(caddr, length)`). -/
def bytesToString (l : List Nat) : String := String.mk (l.map Char.ofNat)

end Cxxforth

namespace Cxxforth

/-- Primitive code functions of the kernel that the claims exercise.
Each constructor names one `void f()` of the source. -/
inductive Prim where
  | pExit
  | pLit
  | pSetDoes
  | pBl
  | pPlus
  deriving DecidableEq, Repr

/-- The native-code field of a dictionary entry: either one of the
primitives above, or one of the three shared runtime routines
`doColon`, `doCreate`, `doDoes`. -/
inductive CodeField where
  | prim (p : Prim)
  | doColonCode
  | doCreateCode
  | doDoesCode
  deriving DecidableEq, Repr

/-- A dictionary entry (`struct Definition` of the source).  `does` and
`parameter` are cell indices into the data space. -/
structure Definition where
  code : CodeField
  does : Nat
  parameter : Nat
  flags : Cell
  name : List Nat
  deriving DecidableEq, Repr

/-- FlagHidden = 1 << 1. -/
def FlagHidden : Cell := 2

/-- FlagImmediate = 1 << 2. -/
def FlagImmediate : Cell := 4

/-- isHidden(): `(flags & FlagHidden) != 0`. -/
def Definition.isHidden (d : Definition) : Bool := d.flags &&& FlagHidden != 0

/-- toggleHidden(): `flags ^= FlagHidden`. -/
def Definition.toggleHidden (d : Definition) : Definition :=
  { d with flags := d.flags ^^^ FlagHidden }

/-- isImmediate(): `(flags & FlagImmediate) != 0`. -/
def Definition.isImmediate (d : Definition) : Bool := d.flags &&& FlagImmediate != 0

/-- toggleImmediate(): `flags ^= FlagImmediate`. -/
def Definition.toggleImmediate (d : Definition) : Definition :=
  { d with flags := d.flags ^^^ FlagImmediate }

/-- The mutable global state of the interpreter: the two stacks (head =
top), the data space (`mem` cells plus the byte cursor `dataPointer`),
the dictionary (most recent entry last), the instruction pointer
`next` (a cell index), `isCompiling` (STATE), `numericBase` (BASE), the
input buffer with offset (>IN), the scratch buffers of WORD and PARSE,
plus the ghost stdout log `out` and ghost execution log `log`. -/
structure MState where
  dStack : List Cell
  rStack : List Cell
  mem : List Cell
  dataPointer : Int
  definitions : List Definition
  next : Nat
  isCompiling : Bool
  numericBase : Cell
  inputBuffer : List Nat
  inputOffset : Nat
  wordBuffer : List Nat
  parseBuffer : List Nat
  out : List String
  log : List Nat
  deriving DecidableEq, Repr

/-- The cached xts `doLiteralXt`, `setDoesXt`, `exitXt`,
`endOfDefinitionXt`, looked up once during initialization and constant
afterwards. -/
structure Cfg where
  doLiteralXt : Nat
  setDoesXt : Nat
  exitXt : Nat
  endOfDefinitionXt : Nat
  deriving DecidableEq, Repr

/-- C++ exceptions: `AbortException` (caught by QUIT) versus any other
exception (`std::runtime_error` etc., which escapes QUIT), and fuel
exhaustion of the model. -/
inductive Err where
  | abortEx (msg : String)
  | fatal (msg : String)
  | noFuel
  deriving DecidableEq, Repr

/-- Result of running a piece of the interpreter: either the new global
state, or an exception paired with the global state at the throw point. -/
abbrev Res := Except (Err × MState) MState

/-- Replace the most recent dictionary entry (`lastDefinition()`), the
behaviour is unspecified in the source when the dictionary is empty. -/
def updateLast (f : Definition → Definition) : List Definition → List Definition
  | [] => []
  | [d] => [f d]
  | d :: rest => d :: updateLast f rest

/-- data(Cell x): REQUIRE_VALID_HERE(","),
REQUIRE_DATASPACE_AVAILABLE(CellSize, ","), REQUIRE_ALIGNED(dataPointer,
","), then store the cell at the data pointer and advance it one cell. -/
def data (x : Cell) (st : MState) : Res :=
  if st.dataPointer < 0 ∨ (dataSpaceSize : Int) ≤ st.dataPointer then
    .error (.abortEx ",: HERE outside data space", st)
  else if (dataSpaceSize : Int) ≤ st.dataPointer + (CellSize : Int) then
    .error (.abortEx ",: data space overflow", st)
  else if st.dataPointer % (CellSize : Int) ≠ 0 then
    .error (.abortEx ",: unaligned address", st)
  else
    .ok { st with mem := st.mem.set (st.dataPointer.toNat / CellSize) x,
                  dataPointer := st.dataPointer + (CellSize : Int) }

/-- ALLOT ( n -- ): REQUIRE_DSTACK_DEPTH(1, "ALLOT"),
REQUIRE_VALID_HERE("ALLOT"), REQUIRE_DATASPACE_AVAILABLE(CellSize,
"ALLOT"), then `dataPointer += *dTop; pop();`.  Adding a `Cell` to a
byte pointer wraps modulo 2^64, which is the same as adding the signed
value of the cell. -/
def allot (st : MState) : Res :=
  match st.dStack with
  | [] => .error (.abortEx "ALLOT: stack underflow", st)
  | n :: rest =>
      if st.dataPointer < 0 ∨ (dataSpaceSize : Int) ≤ st.dataPointer then
        .error (.abortEx "ALLOT: HERE outside data space", st)
      else if (dataSpaceSize : Int) ≤ st.dataPointer + (CellSize : Int) then
        .error (.abortEx "ALLOT: data space overflow", st)
      else
        .ok { st with dStack := rest, dataPointer := st.dataPointer + toSigned n }

/-- doCreate(): REQUIRE_DSTACK_AVAILABLE(1, name), then push the
executing word's parameter address. -/
def doCreate (d : Definition) (st : MState) : Res :=
  if dStackCount < st.dStack.length + 1 then
    .error (.abortEx (bytesToString d.name ++ ": stack overflow"), st)
  else .ok { st with dStack := (d.parameter : Cell) :: st.dStack }

/-- Body of each primitive.  Messages are those produced by the REQUIRE
macros (`name: condition`). -/
def runPrim (st : MState) : Prim → Res
  | .pExit => .error (.fatal "EXIT should not be executed", st)
  | .pLit =>
      if dStackCount < st.dStack.length + 1 then
        .error (.abortEx "(literal): stack overflow", st)
      else
        match st.mem.get? st.next with
        | none => .error (.fatal "literal operand out of data space", st)
        | some x => .ok { st with dStack := x :: st.dStack, next := st.next + 1 }
  | .pSetDoes =>
      let f : Definition → Definition :=
        fun d => { d with code := .doDoesCode, does := st.next + 1 }
      .ok { st with definitions := updateLast f st.definitions }
  | .pBl =>
      if dStackCount < st.dStack.length + 1 then
        .error (.abortEx "BL: stack overflow", st)
      else .ok { st with dStack := (32 : Cell) :: st.dStack }
  | .pPlus =>
      match st.dStack with
      | n2 :: n1 :: rest => .ok { st with dStack := ((n1 + n2) % cellMod) :: rest }
      | _ => .error (.abortEx "+: stack underflow", st)

mutual

/-- Definition::execute(): record the xt in the ghost log, then run the
entry's code field.  A colon definition (V1 `doColon`) first pushes the
current instruction pointer on the return stack and sets it to the
entry's `does` address; `doDoes` first runs `doCreate`, then the same. -/
def execute (cfg : Cfg) (fuel : Nat) (st : MState) (xt : Nat) : Res :=
  match fuel with
  | 0 => .error (.noFuel, st)
  | fuel + 1 =>
    let st1 := { st with log := st.log ++ [xt] }
    match st1.definitions.get? xt with
    | none => .error (.fatal "invalid execution token", st1)
    | some d =>
      match d.code with
      | .prim p => runPrim st1 p
      | .doColonCode =>
          colonLoop cfg fuel { st1 with rStack := (st1.next : Cell) :: st1.rStack,
                                        next := d.does }
      | .doCreateCode => doCreate d st1
      | .doDoesCode =>
          match doCreate d st1 with
          | .ok st2 =>
              colonLoop cfg fuel { st2 with rStack := (st2.next : Cell) :: st2.rStack,
                                            next := d.does }
          | .error e => .error e

/-- The loop of V1 `doColon`: `while (*next != exitXt)
\x7b (*(next++))->execute(); \x7d` followed by `next = *rTop; rpop();`.
The xt is fetched at `next`, `next` is advanced one cell, and only then
is the xt executed; the loop ends without executing the fetched xt
exactly when that xt is the cached EXIT xt, and then the saved
instruction pointer is popped off the return stack into `next`. -/
def colonLoop (cfg : Cfg) (fuel : Nat) (st : MState) : Res :=
  match fuel with
  | 0 => .error (.noFuel, st)
  | fuel + 1 =>
    match st.mem.get? st.next with
    | none => .error (.fatal "instruction fetch out of data space", st)
    | some w =>
      if w = cfg.exitXt then
        match st.rStack with
        | [] => .error (.fatal "return stack empty", st)
        | r :: rs => .ok { st with next := r, rStack := rs }
      else
        match execute cfg fuel { st with next := st.next + 1 } w with
        | .ok st1 => colonLoop cfg fuel st1
        | .error e => .error e

end

end Cxxforth

namespace Cxxforth

/-- isValidDigit(Char c): letters are digits only when BASE exceeds 10;
decimal digits are accepted up to the BASE. -/
def isValidDigit (base : Cell) (c : Nat) : Bool :=
  if 10 < base then
    if 65 ≤ c ∧ c < 65 + base - 10 then true
    else if 97 ≤ c ∧ c < 97 + base - 10 then true
    else decide (48 ≤ c ∧ c < 48 + base)
  else decide (48 ≤ c ∧ c < 48 + base)

/-- digitValue(Char c): value of a digit character. -/
def digitValue (c : Nat) : Cell :=
  if 97 ≤ c then c - 97 + 10
  else if 65 ≤ c then c - 65 + 10
  else c - 48

/-- Digit loop of >UNUM (parseUnsignedNumber): accumulate
`value = value * BASE + digit` (wrapping modulo 2^64) over the maximal
prefix of valid digits; result is the value and the count consumed. -/
def parseUnsignedLoop (base : Cell) (value : Cell) : List Nat → Cell × Nat
  | [] => (value, 0)
  | c :: cs =>
      if isValidDigit base c then
        let r := parseUnsignedLoop base ((value * base + digitValue c) % cellMod) cs
        (r.1, r.2 + 1)
      else (value, 0)

/-- >UNUM ( u0 c-addr1 u1 -- u c-addr2 u2 ) as a function of the string:
returns the accumulated value and the remaining (unconsumed) length. -/
def parseUnsignedNumber (base value : Cell) (chars : List Nat) : Cell × Nat :=
  let r := parseUnsignedLoop base value chars
  (r.1, chars.length - r.2)

/-- >NUM ( n c-addr1 u1 -- n c-addr2 u2 ): when the length exceeds 1 and
the first character is a minus sign, parse the rest as unsigned and
negate the result (`SCell(-1) * SCell(value)`, i.e. two's-complement
negation). -/
def parseSignedNumber (base value : Cell) (chars : List Nat) : Cell × Nat :=
  match chars with
  | c :: rest =>
      if 1 < (c :: rest).length ∧ c = 45 then
        let r := parseUnsignedNumber base value rest
        ((cellMod - r.1) % cellMod, r.2)
      else parseUnsignedNumber base value (c :: rest)
  | [] => parseUnsignedNumber base value []

/-- doNamesMatch(name1, name2, nameLength): the first `len` bytes agree
up to `std::toupper` folding. -/
def doNamesMatch (len : Nat) (n1 n2 : List Nat) : Bool :=
  (List.range len).all fun i => toupper (n1.getD i 0) == toupper (n2.getD i 0)

/-- The per-entry test of findDefinition's loop: not hidden, equal name
length, and names match case-insensitively. -/
def findPred (nameToFind : List Nat) (d : Definition) : Bool :=
  !d.isHidden && d.name.length == nameToFind.length
    && doNamesMatch nameToFind.length nameToFind d.name

/-- Search a dictionary from the most recent entry (the back of the
list) towards the front, returning the index and the entry found. -/
def findRev (p : Definition → Bool) : List Definition → Option (Nat × Definition)
  | [] => none
  | d :: rest =>
      match findRev p rest with
      | some (j, e) => some (j + 1, e)
      | none => if p d then some (0, d) else none

/-- findDefinition(nameToFind, nameLength): nothing matches an empty
name; otherwise the most recently defined matching entry wins. -/
def findDefinition (defs : List Definition) (nameToFind : List Nat) :
    Option (Nat × Definition) :=
  if nameToFind.length == 0 then none
  else findRev (findPred nameToFind) defs

/-- FIND ( c-addr -- c-addr 0 | xt 1 | xt -1 ).  `readByte` gives the
byte stored at an address (the counted string lives in a scratch buffer
outside the data space, so reads are abstracted).  The result is the new
data stack, or the message of the AbortException thrown by a failed
REQUIRE check. -/
def find (defs : List Definition) (readByte : Cell → Nat) (stack : List Cell) :
    Except String (List Cell) :=
  match stack with
  | [] => .error "FIND: stack underflow"
  | caddr :: rest =>
      if dStackCount < stack.length + 1 then .error "FIND: stack overflow"
      else
        let length := readByte caddr
        let name := (List.range length).map fun i => readByte (caddr + 1 + i)
        match findDefinition defs name with
        | none => .ok (0 :: caddr :: rest)
        | some (xt, w) =>
            .ok ((if w.isImmediate then 1 else cellMod - 1) :: (xt : Cell) :: rest)

/-- WORD of the V1 revision ( char "<chars>ccc<char>" -- c-addr ): skip
leading copies of the exact delimiter, copy characters until the
delimiter occurs again (the trailing delimiter is not consumed), store
the token into the scratch buffer behind a length byte, and replace the
stack top by the buffer address (modelled as 0). -/
def word (st : MState) : Res :=
  match st.dStack with
  | [] => .error (.abortEx "WORD: stack underflow", st)
  | delimCell :: rest =>
      let delim : Nat := delimCell % 256
      let remaining := st.inputBuffer.drop st.inputOffset
      let skipped := countLeading (fun c => c == delim) remaining
      let tok := (remaining.drop skipped).takeWhile fun c => !(c == delim)
      .ok { st with dStack := 0 :: rest,
                    wordBuffer := (tok.length % 256) :: tok,
                    inputOffset := st.inputOffset + skipped + tok.length }

/-- The loop of INTERPRET (identical in V1 and V2): while the input
offset has not reached the buffer size captured at entry, read a
blank-delimited word, look it up, and either compile it, execute it, or
parse it as a number; an unparseable non-empty token aborts; an empty
token pops a cell and returns.  Buffer addresses passing over the stack
are modelled as 0; `efuel` is the fuel handed to `execute`. -/
def interpretLoop (cfg : Cfg) (efuel : Nat) (inputSize : Nat) :
    Nat → MState → Res
  | 0, st => .error (.noFuel, st)
  | ifuel + 1, st =>
    if st.inputOffset < inputSize then
      if dStackCount < st.dStack.length + 1 then
        .error (.abortEx "BL: stack overflow", st)
      else
        let remaining := st.inputBuffer.drop st.inputOffset
        let skipped := countLeading (fun c => c == 32) remaining
        let tok := (remaining.drop skipped).takeWhile fun c => !(c == 32)
        let st1 := { st with
                     wordBuffer := (tok.length % 256) :: tok,
                     inputOffset := st.inputOffset + skipped + tok.length,
                     dStack := 0 :: st.dStack }
        if dStackCount < st1.dStack.length + 1 then
          .error (.abortEx "FIND: stack overflow", st1)
        else
          let cnt := tok.length % 256
          let name := tok.take cnt
          match findDefinition st1.definitions name with
          | some (xt, w) =>
              let st2 := { st1 with dStack := st.dStack }
              if st2.isCompiling && !w.isImmediate then
                match data xt st2 with
                | .ok st3 => interpretLoop cfg efuel inputSize ifuel st3
                | .error e => .error e
              else
                match execute cfg efuel st2 xt with
                | .ok st3 => interpretLoop cfg efuel inputSize ifuel st3
                | .error e => .error e
          | none =>
              if dStackCount < st1.dStack.length + 1 then
                .error (.abortEx "COUNT: stack overflow", st1)
              else
                let st2 := { st1 with dStack := st.dStack }
                if 0 < cnt then
                  let pr := parseSignedNumber st2.numericBase 0 name
                  let st3 := { st2 with dStack := pr.1 :: st2.dStack }
                  if pr.2 == 0 then
                    if st3.isCompiling then
                      match data cfg.doLiteralXt st3 with
                      | .ok st4 =>
                          match data pr.1 st4 with
                          | .ok st5 =>
                              interpretLoop cfg efuel inputSize ifuel
                                { st5 with dStack := st2.dStack }
                          | .error e => .error e
                      | .error e => .error e
                    else interpretLoop cfg efuel inputSize ifuel st3
                  else
                    .error (.abortEx ("unrecognized word: " ++ bytesToString name), st3)
                else
                  .ok { st2 with dStack := st2.dStack.tail }
    else .ok st

/-- INTERPRET ( i*x -- j*x ): the buffer size is read once at entry and
the loop runs against it. -/
def interpret (cfg : Cfg) (efuel ifuel : Nat) (st : MState) : Res :=
  interpretLoop cfg efuel st.inputBuffer.length ifuel st

/-- PROMPT: display `"  ok"` and a newline only in interpretation
state. -/
def prompt (st : MState) : MState :=
  if st.isCompiling then st else { st with out := st.out ++ ["  ok\n"] }

/-- Outcome of one iteration of QUIT's top loop. -/
inductive QuitStep where
  | brk (st : MState)
  | cont (st : MState) (rest : List String)
  | died (e : Err) (st : MState)
  deriving DecidableEq, Repr

/-- One iteration of QUIT's loop: the try block runs REFILL (modelled as
taking the next line of `lines`) and INTERPRET; end-of-input breaks out
of the loop; an AbortException is caught and its message is printed when
non-empty, then both stacks are reset and STATE cleared; any other
exception escapes QUIT.  PROMPT runs after the try/catch, not after a
break. -/
def quitStep (cfg : Cfg) (efuel ifuel : Nat) (st : MState) (lines : List String) :
    QuitStep :=
  if dStackCount < st.dStack.length + 1 then
    let msg := "REFILL: stack overflow"
    let st1 := { st with out := st.out ++ ["<<< Error: " ++ msg ++ " >>>\n"],
                         dStack := [], rStack := [], isCompiling := false }
    .cont (prompt st1) lines
  else
    match lines with
    | [] => .brk st
    | l :: rest =>
        let st1 := { st with inputBuffer := strBytes l, inputOffset := 0 }
        match interpret cfg efuel ifuel st1 with
        | .ok st2 => .cont (prompt st2) rest
        | .error (.abortEx msg, stE) =>
            let stE1 := if 0 < msg.length then
                          { stE with out := stE.out ++ ["<<< Error: " ++ msg ++ " >>>\n"] }
                        else stE
            let stE2 := { stE1 with dStack := [], rStack := [], isCompiling := false }
            .cont (prompt stE2) rest
        | .error (e, stE) => .died e stE

/-- The top loop of QUIT: iterate `quitStep` until end-of-input, then
print the final newline (`cr()` before `bye()` terminates the process
normally). -/
def quitLoop (cfg : Cfg) (efuel ifuel : Nat) : Nat → MState → List String → Res
  | 0, st, _ => .error (.noFuel, st)
  | fuel + 1, st, lines =>
      match quitStep cfg efuel ifuel st lines with
      | .brk st1 => .ok { st1 with out := st1.out ++ ["\n"] }
      | .cont st1 rest => quitLoop cfg efuel ifuel fuel st1 rest
      | .died e st1 => .error (e, st1)

/-- QUIT ( -- ): reset the return stack and clear STATE, then run the
top loop over the remaining input lines. -/
def quit (cfg : Cfg) (efuel ifuel fuel : Nat) (st : MState) (lines : List String) : Res :=
  quitLoop cfg efuel ifuel fuel { st with rStack := [], isCompiling := false } lines

/-- EVALUATE ( i*x c-addr u -- j*x ): pop the string specification, save
the current input source, install the string as the source with offset
0, run INTERPRET, and restore the saved source; the restore statements
sit after the `interpret()` call, so an exception propagates before they
run. -/
def evaluate (cfg : Cfg) (efuel ifuel : Nat) (readByte : Cell → Nat) (st : MState) : Res :=
  match st.dStack with
  | len :: caddr :: rest =>
      let text := (List.range len).map fun i => readByte (caddr + i)
      let savedInput := st.inputBuffer
      let savedOffset := st.inputOffset
      let st1 := { st with dStack := rest, inputBuffer := text, inputOffset := 0 }
      match interpret cfg efuel ifuel st1 with
      | .ok st2 => .ok { st2 with inputBuffer := savedInput, inputOffset := savedOffset }
      | .error e => .error e
  | _ => .error (.abortEx "EVALUATE: stack underflow", st)

/-- DOES> (identical in both revisions): compile the `(does)` marker xt
(`setDoesXt`) followed by the EXIT xt into the current definition. -/
def does (cfg : Cfg) (st : MState) : Res :=
  match data cfg.setDoesXt st with
  | .error e => .error e
  | .ok st1 => data cfg.exitXt st1

/-- A single quoted character, as built by
`"...delimiter \x27" + string(1, delim) + "\x27"`. -/
def quoteChar (c : Nat) : String :=
  String.mk [Char.ofNat 39, Char.ofNat c, Char.ofNat 39]

end Cxxforth

namespace Cxxforth.V2

/-- isWordDelimiterMatch(delim, c): when the delimiter is a space, any C
whitespace character matches it; otherwise only the delimiter itself. -/
def isWordDelimiterMatch (delim c : Nat) : Bool :=
  if delim == 32 then isspaceB c else delim == c

/-- WORD of the V2 revision: both scanning loops go through
`isWordDelimiterMatch`, and one trailing delimiter is consumed when the
scan stops before the end of the buffer. -/
def word (st : MState) : Res :=
  match st.dStack with
  | [] => .error (.abortEx "WORD: stack underflow", st)
  | delimCell :: rest =>
      let delim : Nat := delimCell % 256
      let remaining := st.inputBuffer.drop st.inputOffset
      let skipped := countLeading (isWordDelimiterMatch delim) remaining
      let tok := (remaining.drop skipped).takeWhile fun c => !isWordDelimiterMatch delim c
      let off1 := st.inputOffset + skipped + tok.length
      let off2 := if off1 < st.inputBuffer.length then off1 + 1 else off1
      .ok { st with dStack := 0 :: rest,
                    wordBuffer := (tok.length % 256) :: tok,
                    inputOffset := off2 }

/-- PARSE of the V2 revision ( char "ccc<char>" -- c-addr u ): copy
characters (without skipping leading delimiters) until the delimiter;
hitting the end of the buffer instead is an AbortException; otherwise
the delimiter is skipped and the scratch-buffer address (modelled 0) and
the parsed length are left on the stack. -/
def parse (st : MState) : Res :=
  match st.dStack with
  | [] => .error (.abortEx "PARSE: stack underflow", st)
  | delimCell :: rest =>
      if dStackCount < st.dStack.length + 1 then
        .error (.abortEx "PARSE: stack overflow", st)
      else
        let delim : Nat := delimCell % 256
        let remaining := st.inputBuffer.drop st.inputOffset
        let text := remaining.takeWhile fun c => !(c == delim)
        let off1 := st.inputOffset + text.length
        if off1 == st.inputBuffer.length then
          .error (.abortEx ("PARSE: Did not find expected delimiter " ++ quoteChar delim),
                  { st with parseBuffer := text, inputOffset := off1 })
        else
          .ok { st with parseBuffer := text, inputOffset := off1 + 1,
                        dStack := (text.length : Cell) :: 0 :: rest }

/-- The `;` of the V2 revision ( C: colon-sys -- ): compile EXIT,
compile the `(;)` end-of-definition marker, clear STATE, and toggle the
hidden flag of the latest definition. -/
def semicolon (cfg : Cfg) (st : MState) : Res :=
  match data cfg.exitXt st with
  | .error e => .error e
  | .ok st1 =>
      match data cfg.endOfDefinitionXt st1 with
      | .error e => .error e
      | .ok st2 =>
          .ok { st2 with isCompiling := false,
                         definitions := updateLast Definition.toggleHidden st2.definitions }

end Cxxforth.V2

namespace Cxxforth

/-- State carried by an execution result, whether normal or thrown. -/
def Res.state : Res → MState
  | .ok s => s
  | .error (_, s) => s

theorem countLeading_eq_length_takeWhile (p : Nat → Bool) (l : List Nat) :
    countLeading p l = (l.takeWhile p).length := by
  induction l with
  | nil => rfl
  | cons c cs ih =>
      by_cases h : p c <;> simp [countLeading, List.takeWhile, h, ih]

theorem drop_countLeading (p : Nat → Bool) (l : List Nat) :
    l.drop (countLeading p l) = l.dropWhile p := by
  induction l with
  | nil => rfl
  | cons c cs ih =>
      by_cases h : p c <;> simp [countLeading, List.dropWhile, h, ih]

theorem length_takeWhile_lt_of_mem {p : Nat → Bool} {l : List Nat} {a : Nat}
    (ha : a ∈ l) (hpa : p a = false) : (l.takeWhile p).length < l.length := by
  rcases Nat.lt_or_ge (l.takeWhile p).length l.length with h | h
  · exact h
  · exfalso
    have hle : (l.takeWhile p).length ≤ l.length := (l.takeWhile_prefix p).length_le
    have heq : l.takeWhile p = l :=
      (l.takeWhile_prefix p).eq_of_length (Nat.le_antisymm hle h)
    have : p a := List.mem_takeWhile_imp (heq ▸ ha)
    simp [hpa] at this

/-- A baseline machine state with empty stores, used to build concrete
states in examples. -/
def st0 : MState := ⟨[], [], [], 0, [], 0, false, 10, [], 0, [], [], [], []⟩

/-- Claim C7 counterexample: running ALLOT with argument -8 (the cell
2^64 - 8) from HERE = 16 succeeds, and afterwards HERE = 8, strictly
less than before; so HERE is not monotone non-decreasing over every
user-visible operation. -/
theorem allot_negative_decreases_here :
    allot { st0 with dStack := [cellMod - 8], dataPointer := 16 }
      = .ok { st0 with dataPointer := 8 }
    ∧ ¬ ((16 : Int) ≤ ({ st0 with dataPointer := 8 } : MState).dataPointer) :=
  ⟨rfl, by decide⟩

/-- Claim C7, amended: the data-space cursor never decreases under the
data-space operations except ALLOT with a negative argument: ALLOT
moves HERE by exactly the signed value of its argument (so it decreases
HERE exactly when that argument is negative), and a successful
cell-append `data` always advances HERE by one cell. -/
theorem allot_moves_here_by_signed_argument :
    (∀ st n rest st', st.dStack = n :: rest → allot st = .ok st' →
        st'.dataPointer = st.dataPointer + toSigned n)
    ∧ (∀ st n rest st', st.dStack = n :: rest → 0 ≤ toSigned n → allot st = .ok st' →
        st.dataPointer ≤ st'.dataPointer)
    ∧ (∀ x st st', data x st = .ok st' →
        st'.dataPointer = st.dataPointer + (CellSize : Int)) := by
  refine ⟨?_, ?_, ?_⟩
  · intro st n rest st' hstack hrun
    rw [allot, hstack] at hrun
    split_ifs at hrun <;> cases hrun <;> rfl
  · intro st n rest st' hstack hpos hrun
    rw [allot, hstack] at hrun
    split_ifs at hrun <;> cases hrun
    have h : st.dataPointer ≤ st.dataPointer + toSigned n := by omega
    simpa using h
  · intro x st st' hrun
    rw [data] at hrun
    split_ifs at hrun <;> cases hrun <;> rfl

/-- Witness for the amended C7 theorem: a concrete ALLOT of +8 from
HERE = 16 lands on HERE = 24 and does not decrease the cursor. -/
theorem allot_moves_here_by_signed_argument_witness :
    ({ st0 with dStack := [8], dataPointer := 16 } : MState).dataPointer
      ≤ ({ st0 with dataPointer := 24 } : MState).dataPointer :=
  allot_moves_here_by_signed_argument.2.1
    { st0 with dStack := [8], dataPointer := 16 } 8 [] { st0 with dataPointer := 24 }
    rfl (by decide) rfl

theorem head_dropWhile_false {p : Nat → Bool} {c : Nat} {cs : List Nat} :
    ∀ l : List Nat, l.dropWhile p = c :: cs → p c = false := by
  intro l
  induction l with
  | nil => intro h; cases h
  | cons a as ih =>
      intro h
      by_cases hpa : p a
      · exact ih (by simpa [List.dropWhile, hpa] using h)
      · rw [List.dropWhile_cons_of_neg hpa] at h
        cases h
        simpa using hpa

theorem dropWhile_ne_nil_of_mem {p : Nat → Bool} {l : List Nat} {a : Nat}
    (ha : a ∈ l) (hpa : p a = false) : l.dropWhile p ≠ [] := by
  induction l with
  | nil => cases ha
  | cons b bs ih =>
      by_cases hpb : p b
      · rw [List.dropWhile_cons_of_pos hpb]
        rcases List.mem_cons.mp ha with rfl | hmem
        · rw [hpa] at hpb; cases hpb
        · exact ih hmem
      · rw [List.dropWhile_cons_of_neg hpb]
        simp

/-- Claim C5: PARSE (V2 revision) reads characters up to a single
occurrence of the delimiter without skipping leading delimiters, then
consumes that one delimiter, leaving the parsed text in the scratch
buffer with its address and length on the stack; when the delimiter does
not occur before the end of the input buffer, PARSE raises an
AbortException instead. -/
theorem parse_single_delimiter_or_abort
    (st : MState) (delimCell : Cell) (rest : List Cell) (delim : Nat) (text : List Nat)
    (hstack : st.dStack = delimCell :: rest)
    (hdelim : delim = delimCell % 256)
    (htext : text = (st.inputBuffer.drop st.inputOffset).takeWhile fun c => !(c == delim))
    (hroom : ¬ dStackCount < st.dStack.length + 1)
    (hoff : st.inputOffset ≤ st.inputBuffer.length) :
    (delim ∈ st.inputBuffer.drop st.inputOffset →
       V2.parse st = .ok { st with parseBuffer := text,
                                   inputOffset := st.inputOffset + text.length + 1,
                                   dStack := (text.length : Cell) :: 0 :: rest }
       ∧ (st.inputBuffer.drop st.inputOffset).take (text.length + 1) = text ++ [delim])
    ∧ (delim ∉ st.inputBuffer.drop st.inputOffset →
       V2.parse st
         = .error (.abortEx ("PARSE: Did not find expected delimiter " ++ quoteChar delim),
                   { st with parseBuffer := text,
                             inputOffset := st.inputOffset + text.length }))
    ∧ ((st.inputBuffer.drop st.inputOffset).head? = some delim → text = []) := by
  have hlenrem : (st.inputBuffer.drop st.inputOffset).length
      = st.inputBuffer.length - st.inputOffset := List.length_drop _ _
  refine ⟨?_, ?_, ?_⟩
  · intro hmem
    have hne : (st.inputOffset + text.length == st.inputBuffer.length) = false := by
      have hlt : text.length < (st.inputBuffer.drop st.inputOffset).length := by
        rw [htext]
        exact length_takeWhile_lt_of_mem hmem (by simp)
      rw [beq_eq_false_iff_ne]
      omega
    constructor
    · simp only [V2.parse, hstack]
      rw [if_neg (by simpa [hstack] using hroom)]
      simp only [← hdelim, ← htext, hne]
      rfl
    · have hsplit := List.takeWhile_append_dropWhile
        (fun c => !(c == delim)) (st.inputBuffer.drop st.inputOffset)
      rcases hd : (st.inputBuffer.drop st.inputOffset).dropWhile (fun c => !(c == delim)) with
        _ | ⟨c, cs⟩
      · exact absurd hd (dropWhile_ne_nil_of_mem hmem (by simp))
      · have hc : c = delim := by
          have hf := head_dropWhile_false _ hd
          simpa using hf
        have hrem : st.inputBuffer.drop st.inputOffset = text ++ delim :: cs := by
          conv_lhs => rw [← hsplit]
          rw [hd, hc, htext]
        rw [hrem, List.take_append_eq_append_take]
        simp
  · intro hmem
    have htexteq : text = st.inputBuffer.drop st.inputOffset := by
      rw [htext]
      refine List.takeWhile_eq_self_iff.mpr ?_
      intro a ha
      simp only [Bool.not_eq_true']
      rw [beq_eq_false_iff_ne]
      rintro rfl
      exact hmem ha
    have heq : (st.inputOffset + text.length == st.inputBuffer.length) = true := by
      rw [beq_iff_eq]
      rw [htexteq, hlenrem]
      omega
    simp only [V2.parse, hstack]
    rw [if_neg (by simpa [hstack] using hroom)]
    simp only [← hdelim, ← htext, heq]
    rfl
  · intro hhead
    rcases hr : st.inputBuffer.drop st.inputOffset with _ | ⟨c, cs⟩
    · simp [htext, hr]
    · rw [hr] at hhead
      have hc : c = delim := by simpa using hhead
      simp [htext, hr, hc]

/-- Witness for C5 at a concrete input: parsing up to a right
parenthesis in the buffer "abc)d" succeeds, consumes the delimiter, and
the consumed prefix is the text followed by one delimiter. -/
theorem parse_single_delimiter_or_abort_witness :
    (41 : Nat) ∈ (({ st0 with inputBuffer := strBytes "abc)d",
                              dStack := [41] } : MState).inputBuffer.drop 0)
    ∧ V2.parse { st0 with inputBuffer := strBytes "abc)d", dStack := [41] }
        = .ok { st0 with inputBuffer := strBytes "abc)d",
                         parseBuffer := strBytes "abc",
                         inputOffset := 0 + (strBytes "abc").length + 1,
                         dStack := ((strBytes "abc").length : Cell) :: 0 :: [] } := by
  refine ⟨by decide, ?_⟩
  exact ((parse_single_delimiter_or_abort
      { st0 with inputBuffer := strBytes "abc)d", dStack := [41] }
      41 [] 41 (strBytes "abc") rfl rfl (by decide) (by decide) (by decide)).1
      (by decide)).1

/-- Claim C6: WORD (V2 revision) called with the space character as
delimiter treats every C whitespace character as a delimiter, both while
skipping leading delimiters and while terminating the token, and leaves
the token as a counted string in the scratch buffer. -/
theorem word_blank_folds_whitespace
    (st : MState) (rest : List Cell) (tok : List Nat) (off1 : Nat)
    (hstack : st.dStack = 32 :: rest)
    (htok : tok = ((st.inputBuffer.drop st.inputOffset).dropWhile isspaceB).takeWhile
        fun c => !isspaceB c)
    (hoff1 : off1 = st.inputOffset
        + countLeading isspaceB (st.inputBuffer.drop st.inputOffset) + tok.length) :
    V2.word st = .ok { st with
        dStack := 0 :: rest,
        wordBuffer := (tok.length % 256) :: tok,
        inputOffset := if off1 < st.inputBuffer.length then off1 + 1 else off1 }
    ∧ (∀ c, V2.isWordDelimiterMatch 32 c = isspaceB c)
    ∧ (∀ c, isspaceB c = true ↔ (c = 32 ∨ c = 9 ∨ c = 10 ∨ c = 11 ∨ c = 12 ∨ c = 13)) := by
  have hfn : V2.isWordDelimiterMatch 32 = isspaceB := by
    funext c
    rfl
  refine ⟨?_, fun c => by rw [hfn], fun c => by simp [isspaceB, or_assoc]⟩
  simp only [V2.word, hstack, hfn, drop_countLeading, ← htok, ← hoff1]

/-- Witness for C6 at a concrete input: with the buffer
containing two leading spaces, the token "foo", a tab and then "bar",
WORD with a space delimiter skips the spaces, stops the token at the
tab, and consumes the tab. -/
theorem word_blank_folds_whitespace_witness :
    V2.word { st0 with inputBuffer := strBytes "  foo\tbar", dStack := [32] }
      = .ok { st0 with inputBuffer := strBytes "  foo\tbar",
                       dStack := 0 :: [],
                       wordBuffer := ((strBytes "foo").length % 256) :: strBytes "foo",
                       inputOffset := if 5 < (strBytes "  foo\tbar").length then 5 + 1 else 5 } :=
  (word_blank_folds_whitespace
      { st0 with inputBuffer := strBytes "  foo\tbar", dStack := [32] }
      [] (strBytes "foo") 5 rfl (by decide) (by decide)).1

theorem findRev_none {p : Definition → Bool} :
    ∀ {l : List Definition}, findRev p l = none ↔ ∀ e ∈ l, p e = false := by
  intro l
  induction l with
  | nil => simp [findRev]
  | cons d rest ih =>
      constructor
      · intro h
        simp only [findRev] at h
        cases hr : findRev p rest with
        | some je => rw [hr] at h; cases h
        | none =>
            rw [hr] at h
            by_cases hpd : p d
            · rw [if_pos hpd] at h; cases h
            · intro e he
              rcases List.mem_cons.mp he with rfl | hmem
              · simpa using hpd
              · exact ih.mp hr e hmem
      · intro h
        have hrest : findRev p rest = none := ih.mpr fun e he => h e (List.mem_cons_of_mem d he)
        have hd : p d = false := h d (List.mem_cons_self d rest)
        simp [findRev, hrest, hd]

theorem findRev_some {p : Definition → Bool} :
    ∀ {l : List Definition} {j : Nat} {e : Definition}, findRev p l = some (j, e) →
      l.get? j = some e ∧ p e = true
        ∧ ∀ k, j < k → k < l.length → ∀ x, l.get? k = some x → p x = false := by
  intro l
  induction l with
  | nil => intro j e h; cases h
  | cons d rest ih =>
      intro j e h
      simp only [findRev] at h
      cases hr : findRev p rest with
      | some je =>
          rw [hr] at h
          cases h
          obtain ⟨hget, hp, hlater⟩ := ih hr
          refine ⟨by simpa using hget, hp, ?_⟩
          intro k hk1 hk2 x hx
          cases k with
          | zero => omega
          | succ k' =>
              exact hlater k' (by omega) (by simpa using hk2) x (by simpa using hx)
      | none =>
          rw [hr] at h
          by_cases hpd : p d
          · rw [if_pos hpd] at h
            cases h
            refine ⟨rfl, hpd, ?_⟩
            intro k hk1 hk2 x hx
            cases k with
            | zero => omega
            | succ k' =>
                exact findRev_none.mp hr x (List.get?_mem (by simpa using hx))
          · rw [if_neg hpd] at h
            cases h

/-- Claim C3: FIND on a counted string pushes 0 above the unchanged
string address when nothing matches; otherwise it replaces the address
with the xt of the found entry and pushes 1 when that entry is immediate
and the all-ones cell (-1) when it is not.  Hidden entries are skipped,
the most recently defined matching entry wins, a match requires equal
name lengths and byte agreement under `std::toupper`, and that folding
changes ASCII lower-case letters only. -/
theorem find_counted_string
    (defs : List Definition) (readByte : Cell → Nat) (caddr : Cell)
    (rest : List Cell) (name : List Nat)
    (hroom : ¬ dStackCount < (caddr :: rest).length + 1)
    (hname : name = (List.range (readByte caddr)).map fun i => readByte (caddr + 1 + i)) :
    (findDefinition defs name = none →
       find defs readByte (caddr :: rest) = .ok (0 :: caddr :: rest))
    ∧ (∀ xt w, findDefinition defs name = some (xt, w) →
         find defs readByte (caddr :: rest)
           = .ok ((if w.isImmediate then 1 else cellMod - 1) :: (xt : Cell) :: rest)
         ∧ defs.get? xt = some w
         ∧ w.isHidden = false
         ∧ w.name.length = name.length
         ∧ doNamesMatch name.length name w.name = true
         ∧ (∀ k, xt < k → k < defs.length → ∀ x, defs.get? k = some x →
              findPred name x = false))
    ∧ (name ≠ [] →
         (findDefinition defs name = none ↔ ∀ e ∈ defs, findPred name e = false))
    ∧ (∀ c, toupper c = c ∨ (97 ≤ c ∧ c ≤ 122 ∧ toupper c = c - 32))
    ∧ (∀ len n1 n2, doNamesMatch len n1 n2 = true ↔
         ∀ i < len, toupper (n1.getD i 0) = toupper (n2.getD i 0)) := by
  refine ⟨?_, ?_, ?_, ?_, ?_⟩
  · intro hnone
    simp only [find]
    rw [if_neg hroom, ← hname, hnone]
  · intro xt w hsome
    have hname_ne : (name.length == 0) = false := by
      by_contra hcontra
      have : name.length == 0 := by
        revert hcontra
        cases name.length == 0 <;> simp
      rw [findDefinition, if_pos this] at hsome
      cases hsome
    have hfr : findRev (findPred name) defs = some (xt, w) := by
      rw [findDefinition, hname_ne] at hsome
      · simpa using hsome
    obtain ⟨hget, hp, hlater⟩ := findRev_some hfr
    have hpred := hp
    rw [findPred] at hpred
    simp only [Bool.and_eq_true, Bool.not_eq_true', beq_iff_eq] at hpred
    refine ⟨?_, hget, hpred.1.1, hpred.1.2, hpred.2, hlater⟩
    simp only [find]
    rw [if_neg hroom, ← hname, hsome]
  · intro hne
    have hlen : (name.length == 0) = false := by
      cases hn : name with
      | nil => exact absurd hn hne
      | cons a as => simp [hn]
    rw [findDefinition, hlen]
    simp only [Bool.false_eq_true, if_false]
    exact findRev_none
  · intro c
    by_cases h : 97 ≤ c ∧ c ≤ 122
    · exact Or.inr ⟨h.1, h.2, by simp [toupper, h]⟩
    · exact Or.inl (by simp [toupper, h])
  · intro len n1 n2
    simp [doNamesMatch]

/-- Witness for C3: looking up the counted string "DuP" (stored at
address 0 of the abstracted byte memory) in a dictionary holding an old
non-immediate "dup" and a more recent immediate "DUP" finds the recent
entry (xt 1) case-insensitively and pushes 1. -/
theorem find_counted_string_witness :
    find [⟨.prim .pBl, 0, 0, 0, strBytes "dup"⟩, ⟨.prim .pBl, 0, 0, 4, strBytes "DUP"⟩]
        (fun a => [3, 68, 117, 80].getD a 0) (0 :: [])
      = .ok ((if (⟨.prim .pBl, 0, 0, 4, strBytes "DUP"⟩ : Definition).isImmediate
              then 1 else cellMod - 1) :: (1 : Cell) :: []) :=
  ((find_counted_string
      [⟨.prim .pBl, 0, 0, 0, strBytes "dup"⟩, ⟨.prim .pBl, 0, 0, 4, strBytes "DUP"⟩]
      (fun a => [3, 68, 117, 80].getD a 0) 0 [] [68, 117, 80]
      (by decide) (by decide)).2.1
    1 ⟨.prim .pBl, 0, 0, 4, strBytes "DUP"⟩ (by decide)).1

theorem runPrim_ok {st st' : MState} {p : Prim} (h : runPrim st p = .ok st') :
    st'.rStack = st.rStack ∧ st'.log = st.log ∧ st'.definitions.length = st.definitions.length := by
  cases p with
  | pExit => cases h
  | pLit =>
      simp only [runPrim] at h
      split_ifs at h
      cases hm : st.mem.get? st.next with
      | none => rw [hm] at h; cases h
      | some x => rw [hm] at h; cases h; exact ⟨rfl, rfl, rfl⟩
  | pSetDoes =>
      simp only [runPrim] at h
      cases h
      refine ⟨rfl, rfl, ?_⟩
      show (updateLast _ st.definitions).length = _
      generalize st.definitions = l
      induction l with
      | nil => rfl
      | cons a as ih =>
          cases as with
          | nil => rfl
          | cons b bs => simpa [updateLast] using ih
  | pBl =>
      simp only [runPrim] at h
      split_ifs at h
      cases h
      exact ⟨rfl, rfl, rfl⟩
  | pPlus =>
      simp only [runPrim] at h
      rcases hd : st.dStack with _ | ⟨a, _ | ⟨b, r⟩⟩ <;> rw [hd] at h
      · cases h
      · cases h
      · cases h; exact ⟨rfl, rfl, rfl⟩

theorem doCreate_ok {d : Definition} {st st' : MState} (h : doCreate d st = .ok st') :
    st'.rStack = st.rStack ∧ st'.log = st.log ∧ st'.next = st.next := by
  simp only [doCreate] at h
  split_ifs at h
  cases h
  exact ⟨rfl, rfl, rfl⟩

theorem execute_colonLoop_invariant (cfg : Cfg) :
    ∀ fuel : Nat,
      (∀ st xt st', execute cfg fuel st xt = .ok st' →
         st'.rStack = st.rStack
         ∧ ∃ tr, st'.log = st.log ++ xt :: tr ∧ cfg.exitXt ∉ tr)
      ∧ (∀ st st', colonLoop cfg fuel st = .ok st' →
         (∃ r rs, st.rStack = r :: rs ∧ st'.rStack = rs ∧ st'.next = r)
         ∧ ∃ tr, st'.log = st.log ++ tr ∧ cfg.exitXt ∉ tr) := by
  intro fuel
  induction fuel with
  | zero =>
      constructor
      · intro st xt st' h; cases h
      · intro st st' h; cases h
  | succ fuel ih =>
      obtain ⟨ihE, ihL⟩ := ih
      constructor
      · intro st xt st' h
        simp only [execute] at h
        cases hget : st.definitions.get? xt with
        | none => simp only [hget] at h; cases h
        | some d =>
            simp only [hget] at h
            cases hcode : d.code with
            | prim p =>
                simp only [hcode] at h
                obtain ⟨h1, h2, _⟩ := runPrim_ok h
                refine ⟨h1, [], ?_, by simp⟩
                have h2' : st'.log = st.log ++ [xt] := h2
                simpa using h2'
            | doColonCode =>
                simp only [hcode] at h
                obtain ⟨⟨r, rs, hrs, hrs', hn⟩, tr, hlog, hni⟩ := ihL _ _ h
                have hrs2 : (st.next : Cell) :: st.rStack = r :: rs := hrs
                cases hrs2
                refine ⟨hrs', tr, ?_, hni⟩
                have hlog2 : st'.log = (st.log ++ [xt]) ++ tr := hlog
                simpa using hlog2
            | doCreateCode =>
                simp only [hcode] at h
                obtain ⟨h1, h2, _⟩ := doCreate_ok h
                refine ⟨h1, [], ?_, by simp⟩
                have h2' : st'.log = st.log ++ [xt] := h2
                simpa using h2'
            | doDoesCode =>
                simp only [hcode] at h
                cases hdc : doCreate d { st with log := st.log ++ [xt] } with
                | error e => simp only [hdc] at h; cases h
                | ok st2 =>
                    simp only [hdc] at h
                    obtain ⟨hc1, hc2, hc3⟩ := doCreate_ok hdc
                    obtain ⟨⟨r, rs, hrs, hrs', hn⟩, tr, hlog, hni⟩ := ihL _ _ h
                    have hrs2 : (st2.next : Cell) :: st2.rStack = r :: rs := hrs
                    cases hrs2
                    have hc1' : st2.rStack = st.rStack := hc1
                    have hc2' : st2.log = st.log ++ [xt] := hc2
                    refine ⟨by rw [hrs', hc1'], tr, ?_, hni⟩
                    have hlog2 : st'.log = st2.log ++ tr := hlog
                    rw [hlog2, hc2']
                    simp
      · intro st st' h
        simp only [colonLoop] at h
        cases hw : st.mem.get? st.next with
        | none => simp only [hw] at h; cases h
        | some w =>
            simp only [hw] at h
            by_cases hexit : w = cfg.exitXt
            · rw [if_pos hexit] at h
              cases hrs : st.rStack with
              | nil => simp only [hrs] at h; cases h
              | cons r rs =>
                  simp only [hrs] at h
                  cases h
                  exact ⟨⟨r, rs, rfl, rfl, rfl⟩, [], by simp, by simp⟩
            · rw [if_neg hexit] at h
              cases hex : execute cfg fuel { st with next := st.next + 1 } w with
              | error e => simp only [hex] at h; cases h
              | ok st1 =>
                  simp only [hex] at h
                  obtain ⟨h1, tr1, hlog1, hni1⟩ := ihE _ _ _ hex
                  obtain ⟨⟨r, rs, hrs, hrs', hn⟩, tr2, hlog2, hni2⟩ := ihL _ _ h
                  have h1' : st1.rStack = st.rStack := h1
                  have hlog1' : st1.log = st.log ++ w :: tr1 := hlog1
                  rw [h1'] at hrs
                  refine ⟨⟨r, rs, hrs, hrs', hn⟩, w :: (tr1 ++ tr2), ?_, ?_⟩
                  · rw [hlog2, hlog1']
                    simp
                  · simp only [List.mem_cons, List.mem_append]
                    rintro (rfl | hmem | hmem)
                    · exact hexit rfl
                    · exact hni1 hmem
                    · exact hni2 hmem

/-- Claim C1: executing a colon definition (V1 `doColon`) pushes the
current instruction pointer on the return stack and sets it to the
entry's `does` address; the loop then fetches the xt at the instruction
pointer, advances the pointer one cell, and executes the xt, stopping
exactly when the fetched xt is the cached EXIT xt; the loop never passes
the EXIT xt to `Definition::execute` (witnessed by the ghost execution
log), and on termination the saved instruction pointer is popped off the
return stack and restored. -/
theorem colon_runtime
    (cfg : Cfg) (fuel : Nat) (st : MState) (xt : Nat) (d : Definition) (st' : MState)
    (hget : st.definitions.get? xt = some d)
    (hcode : d.code = .doColonCode)
    (hrun : execute cfg (fuel + 1) st xt = .ok st') :
    execute cfg (fuel + 1) st xt
      = colonLoop cfg fuel { st with log := st.log ++ [xt],
                                     rStack := (st.next : Cell) :: st.rStack,
                                     next := d.does }
    ∧ st'.rStack = st.rStack
    ∧ st'.next = st.next
    ∧ (∃ tr, st'.log = st.log ++ xt :: tr ∧ cfg.exitXt ∉ tr)
    ∧ (∀ (s : MState) (r : Cell) (rs : List Cell),
         s.mem.get? s.next = some cfg.exitXt → s.rStack = r :: rs →
         colonLoop cfg (fuel + 1) s = .ok { s with next := r, rStack := rs })
    ∧ (∀ (s : MState) (w : Cell), s.mem.get? s.next = some w → w ≠ cfg.exitXt →
         colonLoop cfg (fuel + 1) s
           = Except.bind (execute cfg fuel { s with next := s.next + 1 } w)
               (colonLoop cfg fuel)) := by
  have hunf : execute cfg (fuel + 1) st xt
      = colonLoop cfg fuel { st with log := st.log ++ [xt],
                                     rStack := (st.next : Cell) :: st.rStack,
                                     next := d.does } := by
    simp only [execute, hget, hcode]
  have hloop : colonLoop cfg fuel { st with log := st.log ++ [xt],
                                            rStack := (st.next : Cell) :: st.rStack,
                                            next := d.does } = .ok st' := by
    rw [← hunf]; exact hrun
  obtain ⟨⟨r, rs, hrs, hrs', hn⟩, _⟩ :=
    (execute_colonLoop_invariant cfg fuel).2 _ _ hloop
  have hrs2 : (st.next : Cell) :: st.rStack = r :: rs := hrs
  cases hrs2
  obtain ⟨_, tr, hlog, hni⟩ := (execute_colonLoop_invariant cfg (fuel + 1)).1 _ _ _ hrun
  refine ⟨hunf, hrs', hn, ⟨tr, hlog, hni⟩, ?_, ?_⟩
  · intro s r' rs' hmem hsr
    rw [List.get?_eq_getElem?] at hmem
    simp [colonLoop, hmem, hsr]
  · intro s w hmem hne
    rw [List.get?_eq_getElem?] at hmem
    cases hex : execute cfg fuel { s with next := s.next + 1 } w with
    | ok s1 => simp [colonLoop, hmem, hne, hex, Except.bind]
    | error e => simp [colonLoop, hmem, hne, hex, Except.bind]

/-- A small dictionary for concrete runs: EXIT at xt 0, BL at xt 1, and
a colon definition at xt 2 whose thread starts at data-space cell 0. -/
def exampleDefs : List Definition :=
  [⟨.prim .pExit, 0, 0, 0, strBytes "EXIT"⟩,
   ⟨.prim .pBl, 0, 0, 0, strBytes "BL"⟩,
   ⟨.doColonCode, 0, 0, 0, strBytes "T"⟩]

/-- The cached-xt table for runs over `exampleDefs`: EXIT is xt 0. -/
def exampleCfg : Cfg := ⟨9, 9, 0, 9⟩

/-- Entry state for the concrete colon run: thread cells [1, 0] (BL then
EXIT) and instruction pointer 77. -/
def exampleColonEntry : MState :=
  { st0 with mem := [1, 0], next := 77, definitions := exampleDefs }

/-- Result state of the concrete colon run: BL pushed a space, the log
records xt 2 then xt 1, and the instruction pointer is restored. -/
def exampleColonResult : MState :=
  { st0 with mem := [1, 0], next := 77, definitions := exampleDefs,
             dStack := [32], log := [2, 1] }

/-- Witness for C1: executing the colon definition xt 2 of `exampleDefs`
runs BL once, never executes EXIT, and restores the instruction pointer
and the return stack. -/
theorem colon_runtime_witness :
    exampleColonResult.rStack = exampleColonEntry.rStack
    ∧ exampleColonResult.next = exampleColonEntry.next
    ∧ (∃ tr, exampleColonResult.log = exampleColonEntry.log ++ 2 :: tr
        ∧ exampleCfg.exitXt ∉ tr) := by
  have h := colon_runtime exampleCfg 2 exampleColonEntry 2
      ⟨.doColonCode, 0, 0, 0, strBytes "T"⟩ exampleColonResult rfl rfl rfl
  exact ⟨h.2.1, h.2.2.1, h.2.2.2.1⟩

theorem data_ok {x : Cell} {st : MState}
    (h0 : 0 ≤ st.dataPointer) (hal : st.dataPointer % (CellSize : Int) = 0)
    (hroom : st.dataPointer + (CellSize : Int) < (dataSpaceSize : Int)) :
    data x st = .ok { st with mem := st.mem.set (st.dataPointer.toNat / CellSize) x,
                              dataPointer := st.dataPointer + (CellSize : Int) } := by
  simp only [data]
  rw [if_neg (by omega), if_neg (by omega), if_neg (by simp [hal])]

theorem updateLast_append (f : Definition → Definition) :
    ∀ (l : List Definition) (d : Definition), updateLast f (l ++ [d]) = l ++ [f d] := by
  intro l
  induction l with
  | nil => intro d; rfl
  | cons a as ih =>
      intro d
      cases has : as ++ [d] with
      | nil => exact absurd has (by simp)
      | cons b bs =>
          calc updateLast f ((a :: as) ++ [d])
              = updateLast f (a :: (b :: bs)) := by rw [List.cons_append, has]
            _ = a :: updateLast f (b :: bs) := rfl
            _ = a :: updateLast f (as ++ [d]) := by rw [← has]
            _ = a :: (as ++ [f d]) := by rw [ih]
            _ = (a :: as) ++ [f d] := by simp

theorem colonLoop_exit_step (cfg : Cfg) (fuel : Nat) (s : MState) (r : Cell)
    (rs : List Cell) (hmem : s.mem.get? s.next = some cfg.exitXt)
    (hsr : s.rStack = r :: rs) :
    colonLoop cfg (fuel + 1) s = .ok { s with next := r, rStack := rs } := by
  rw [List.get?_eq_getElem?] at hmem
  simp [colonLoop, hmem, hsr]

theorem colonLoop_exec_step (cfg : Cfg) (fuel : Nat) (s : MState) (w : Cell)
    (hmem : s.mem.get? s.next = some w) (hne : w ≠ cfg.exitXt) :
    colonLoop cfg (fuel + 1) s
      = Except.bind (execute cfg fuel { s with next := s.next + 1 } w)
          (colonLoop cfg fuel) := by
  rw [List.get?_eq_getElem?] at hmem
  cases hex : execute cfg fuel { s with next := s.next + 1 } w with
  | ok s1 => simp [colonLoop, hmem, hne, hex, Except.bind]
  | error e => simp [colonLoop, hmem, hne, hex, Except.bind]

theorem execute_prim_step (cfg : Cfg) (fuel : Nat) (st : MState) (xt : Nat)
    (p : Prim) (d : Definition) (hget : st.definitions.get? xt = some d)
    (hcode : d.code = .prim p) :
    execute cfg (fuel + 1) st xt = runPrim { st with log := st.log ++ [xt] } p := by
  simp only [execute, hget, hcode]

/-- A dictionary for exercising `(does)`: EXIT at xt 0, the `(does)`
marker primitive (setDoes) at xt 1, a colon definition at xt 2 whose
thread starts at cell 0, and a CREATEd word at xt 3 as the most recent
entry. -/
def exampleDoesDefs : List Definition :=
  [⟨.prim .pExit, 0, 0, 0, strBytes "EXIT"⟩,
   ⟨.prim .pSetDoes, 0, 0, 0, strBytes "(does)"⟩,
   ⟨.doColonCode, 0, 0, 0, strBytes "DEFINER"⟩,
   ⟨.doCreateCode, 7, 7, 0, strBytes "FIVE"⟩]

/-- Entry state for the `(does)` run: the thread is [1, 0], i.e. the
`(does)` marker sits in cell 0 and EXIT in cell 1. -/
def exampleDoesEntry : MState :=
  { st0 with mem := [1, 0], next := 77, definitions := exampleDoesDefs }

/-- Result of the `(does)` run: the most recent entry was rewired to
does-runtime with its `does` field at cell 2. -/
def exampleDoesResult : MState :=
  { st0 with mem := [1, 0], next := 77, log := [2, 1],
             definitions :=
               [⟨.prim .pExit, 0, 0, 0, strBytes "EXIT"⟩,
                ⟨.prim .pSetDoes, 0, 0, 0, strBytes "(does)"⟩,
                ⟨.doColonCode, 0, 0, 0, strBytes "DEFINER"⟩,
                ⟨.doDoesCode, 2, 7, 0, strBytes "FIVE"⟩] }

/-- Claim C8 counterexample: running the enclosing colon definition
whose thread holds the `(does)` marker at cell 0 rewires the most recent
entry with `does` = cell 2, not the address immediately following the
marker cell (which would be cell 1): the `does` field lands one cell
past the EXIT that DOES> compiled after the marker. -/
theorem setDoes_skips_exit_cell :
    execute ⟨9, 1, 0, 9⟩ 3 exampleDoesEntry 2 = .ok exampleDoesResult
    ∧ (exampleDoesResult.definitions.getLast?).map Definition.does = some 2
    ∧ (2 : Nat) ≠ 0 + 1 :=
  ⟨rfl, rfl, by decide⟩

/-- Claim C8, amended: DOES> compiles the `(does)` marker xt followed by
the EXIT xt into the current definition, and when `(does)` executes at
cell p of the enclosing definition's thread, it rewires the most recent
dictionary entry to does-runtime with its `does` field set to cell p+2 -
the cell immediately following the compiled EXIT, two cells past the
`(does)` marker itself (the instruction pointer has already advanced
past the marker and `setDoes` adds one more cell). -/
theorem does_compiles_marker_and_rewires_latest
    (cfg : Cfg) (st : MState)
    (h0 : 0 ≤ st.dataPointer) (hal : st.dataPointer % (CellSize : Int) = 0)
    (hroom : st.dataPointer + 16 < (dataSpaceSize : Int)) :
    does cfg st = .ok { st with
        mem := (st.mem.set (st.dataPointer.toNat / CellSize) cfg.setDoesXt).set
            (st.dataPointer.toNat / CellSize + 1) cfg.exitXt,
        dataPointer := st.dataPointer + 16 }
    ∧ (∀ (fuel : Nat) (s : MState) (sd : Definition),
         s.definitions.get? cfg.setDoesXt = some sd → sd.code = .prim .pSetDoes →
         s.mem.get? s.next = some cfg.setDoesXt → cfg.setDoesXt ≠ cfg.exitXt →
         colonLoop cfg (fuel + 2) s
           = colonLoop cfg (fuel + 1)
               { s with next := s.next + 1, log := s.log ++ [cfg.setDoesXt],
                        definitions := updateLast
                          (fun d => { d with code := .doDoesCode, does := s.next + 2 })
                          s.definitions })
    ∧ (∀ (l : List Definition) (d : Definition) (f : Definition → Definition),
         updateLast f (l ++ [d]) = l ++ [f d]) := by
  have hC : ((CellSize : Nat) : Int) = 8 := by norm_num [CellSize]
  have hS : ((dataSpaceSize : Nat) : Int) = 131072 := by norm_num [dataSpaceSize, CellSize]
  refine ⟨?_, ?_, fun l d f => updateLast_append f l d⟩
  · have h1 := @data_ok cfg.setDoesXt st h0 hal (by omega)
    have h2 := @data_ok cfg.exitXt
        { st with mem := st.mem.set (st.dataPointer.toNat / CellSize) cfg.setDoesXt,
                         dataPointer := st.dataPointer + (CellSize : Int) }
        (by show (0 : Int) ≤ st.dataPointer + (CellSize : Int); omega)
        (by show (st.dataPointer + (CellSize : Int)) % (CellSize : Int) = 0
            rw [hC] at hal ⊢
            omega)
        (by show st.dataPointer + (CellSize : Int) + (CellSize : Int) < (dataSpaceSize : Int)
            omega)
    simp only [does, h1, h2]
    have hidx : ((st.dataPointer + (CellSize : Int)).toNat / CellSize)
        = st.dataPointer.toNat / CellSize + 1 := by
      have h8 : (st.dataPointer + (CellSize : Int)).toNat = st.dataPointer.toNat + CellSize := by
        simp only [CellSize]
        omega
      rw [h8]
      exact Nat.add_div_right _ (by simp [CellSize])
    have hdp2 : st.dataPointer + (CellSize : Int) + (CellSize : Int) = st.dataPointer + 16 := by
      simp only [CellSize]
      omega
    rw [hidx, hdp2]
  · intro fuel s sd hsd hcode hw hne
    rw [colonLoop_exec_step cfg (fuel + 1) s cfg.setDoesXt hw hne]
    have hsd2 : ({ s with next := s.next + 1 } : MState).definitions.get? cfg.setDoesXt
        = some sd := hsd
    rw [execute_prim_step cfg fuel _ cfg.setDoesXt .pSetDoes sd hsd2 hcode]
    rfl

/-- Witness for the amended C8 theorem: DOES> compiled at HERE = 0
writes the marker xt 1 and the EXIT xt 0 into cells 0 and 1, and a
colon frame positioned on the marker cell 0 rewires the most recent
entry with `does` = cell 2. -/
theorem does_compiles_marker_and_rewires_latest_witness :
    (does ⟨9, 1, 0, 9⟩ { st0 with mem := [5, 5, 5, 5] }
      = .ok { st0 with
              mem := ((([5, 5, 5, 5] : List Cell).set ((0 : Int).toNat / CellSize) 1).set
                  ((0 : Int).toNat / CellSize + 1) 0),
              dataPointer := (0 : Int) + 16 })
    ∧ (colonLoop ⟨9, 1, 0, 9⟩ (0 + 2)
          { st0 with mem := [1, 0], definitions := exampleDoesDefs }
        = colonLoop ⟨9, 1, 0, 9⟩ (0 + 1)
            { st0 with mem := [1, 0],
                       next := 0 + 1,
                       log := [] ++ [1],
                       definitions := updateLast
                         (fun d => { d with code := .doDoesCode, does := 0 + 2 })
                         exampleDoesDefs }) := by
  have h := does_compiles_marker_and_rewires_latest ⟨9, 1, 0, 9⟩
      { st0 with mem := [5, 5, 5, 5] } (by decide) (by decide) (by decide)
  refine ⟨h.1, ?_⟩
  exact h.2.1 0 { st0 with mem := [1, 0], definitions := exampleDoesDefs }
      ⟨.prim .pSetDoes, 0, 0, 0, strBytes "(does)"⟩ rfl rfl rfl (by decide)

theorem toggleHidden_unhides (d : Definition) (h : d.isHidden = true) :
    (d.toggleHidden).isHidden = false := by
  simp only [Definition.isHidden, Definition.toggleHidden, FlagHidden, bne_iff_ne,
    ne_eq] at h
  have h2 : d.flags &&& 2 = 2 := by
    have hpow := Nat.and_two_pow d.flags 1
    norm_num at hpow
    cases ht : d.flags.testBit 1 with
    | false => rw [ht] at hpow; simp at hpow; exact absurd hpow h
    | true => rw [ht] at hpow; simpa using hpow
  have hx : (d.flags ^^^ 2) &&& 2 = 0 := by
    rw [Nat.and_xor_distrib_right, h2]
    simp
  simp only [Definition.isHidden, Definition.toggleHidden, FlagHidden, hx]
  decide

/-- Claim C9: the `;` word of the V2 revision compiles the EXIT xt, then
the `(;)` end-of-definition marker xt, clears STATE back to interpreting
state, and toggles the hidden flag of the latest definition - turning
the flag off for the definition `:` had hidden. -/
theorem semicolon_ends_definition
    (cfg : Cfg) (st : MState)
    (h0 : 0 ≤ st.dataPointer) (hal : st.dataPointer % (CellSize : Int) = 0)
    (hroom : st.dataPointer + 16 < (dataSpaceSize : Int)) :
    V2.semicolon cfg st = .ok { st with
        mem := (st.mem.set (st.dataPointer.toNat / CellSize) cfg.exitXt).set
            (st.dataPointer.toNat / CellSize + 1) cfg.endOfDefinitionXt,
        dataPointer := st.dataPointer + 16,
        isCompiling := false,
        definitions := updateLast Definition.toggleHidden st.definitions }
    ∧ (∀ (l : List Definition) (d : Definition),
         updateLast Definition.toggleHidden (l ++ [d]) = l ++ [d.toggleHidden])
    ∧ (∀ d : Definition, d.isHidden = true → (d.toggleHidden).isHidden = false) := by
  have hC : ((CellSize : Nat) : Int) = 8 := by norm_num [CellSize]
  have hS : ((dataSpaceSize : Nat) : Int) = 131072 := by norm_num [dataSpaceSize, CellSize]
  refine ⟨?_, fun l d => updateLast_append Definition.toggleHidden l d,
    fun d hd => toggleHidden_unhides d hd⟩
  have h1 := @data_ok cfg.exitXt st h0 hal (by omega)
  have h2 := @data_ok cfg.endOfDefinitionXt
      { st with mem := st.mem.set (st.dataPointer.toNat / CellSize) cfg.exitXt,
                       dataPointer := st.dataPointer + (CellSize : Int) }
      (by show (0 : Int) ≤ st.dataPointer + (CellSize : Int); omega)
      (by show (st.dataPointer + (CellSize : Int)) % (CellSize : Int) = 0
          rw [hC] at hal ⊢
          omega)
      (by show st.dataPointer + (CellSize : Int) + (CellSize : Int) < (dataSpaceSize : Int)
          omega)
  simp only [V2.semicolon, h1, h2]
  have hidx : ((st.dataPointer + (CellSize : Int)).toNat / CellSize)
      = st.dataPointer.toNat / CellSize + 1 := by
    have h8 : (st.dataPointer + (CellSize : Int)).toNat = st.dataPointer.toNat + CellSize := by
      simp only [CellSize]
      omega
    rw [h8]
    exact Nat.add_div_right _ (by simp [CellSize])
  have hdp2 : st.dataPointer + (CellSize : Int) + (CellSize : Int) = st.dataPointer + 16 := by
    simp only [CellSize]
    omega
  rw [hidx, hdp2]

/-- Witness for C9: ending a definition with HERE = 0 over a one-entry
dictionary holding a hidden colon definition writes EXIT (xt 0) and the
marker (xt 9) into cells 0 and 1, clears STATE, and unhides the entry. -/
theorem semicolon_ends_definition_witness :
    V2.semicolon ⟨8, 7, 0, 9⟩
        { st0 with mem := [5, 5, 5, 5], isCompiling := true,
                   definitions := [⟨.doColonCode, 0, 0, 2, strBytes "T"⟩] }
      = .ok { st0 with
              mem := ((([5, 5, 5, 5] : List Cell).set ((0 : Int).toNat / CellSize) 0).set
                  ((0 : Int).toNat / CellSize + 1) 9),
              dataPointer := (0 : Int) + 16,
              isCompiling := false,
              definitions := updateLast Definition.toggleHidden
                [⟨.doColonCode, 0, 0, 2, strBytes "T"⟩] } :=
  (semicolon_ends_definition ⟨8, 7, 0, 9⟩
      { st0 with mem := [5, 5, 5, 5], isCompiling := true,
                 definitions := [⟨.doColonCode, 0, 0, 2, strBytes "T"⟩] }
      (by decide) (by decide) (by decide)).1

theorem parseUnsignedLoop_all_valid (base : Cell) :
    ∀ (ds : List Nat) (v : Cell), (∀ c ∈ ds, isValidDigit base c = true) →
      parseUnsignedLoop base v ds
        = (ds.foldl (fun a c => (a * base + digitValue c) % cellMod) v, ds.length) := by
  intro ds
  induction ds with
  | nil => intro v _; rfl
  | cons c cs ih =>
      intro v hall
      have hc : isValidDigit base c = true := hall c (List.mem_cons_self c cs)
      simp only [parseUnsignedLoop, hc, if_true, List.foldl_cons, List.length_cons]
      rw [ih _ fun x hx => hall x (List.mem_cons_of_mem c hx)]

/-- Claim C2: when INTERPRET fails to find a token in the dictionary it
parses it as a signed integer in the current BASE with an optional
leading minus, accumulating value*BASE+digit per digit with wrap-around
modulo 2^64; a fully parsed value is pushed in interpreting state or
compiled as the (lit) xt followed by the value in compiling state, and a
token that does not fully parse aborts with a message containing the
token. -/
theorem interpret_number_token
    (cfg : Cfg) (efuel inputSize ifuel : Nat) (st : MState) (tok : List Nat) (off' : Nat)
    (hoff : st.inputOffset < inputSize)
    (hroom : st.dStack.length + 2 ≤ dStackCount)
    (htok : tok = ((st.inputBuffer.drop st.inputOffset).drop
        (countLeading (fun c => c == 32) (st.inputBuffer.drop st.inputOffset))).takeWhile
        (fun c => !(c == 32)))
    (hoff' : off' = st.inputOffset
        + countLeading (fun c => c == 32) (st.inputBuffer.drop st.inputOffset) + tok.length)
    (hlen : tok.length < 256)
    (hne : tok ≠ [])
    (hfind : findDefinition st.definitions tok = none) :
    ((parseSignedNumber st.numericBase 0 tok).2 = 0 → st.isCompiling = false →
       interpretLoop cfg efuel inputSize (ifuel + 1) st
         = interpretLoop cfg efuel inputSize ifuel
             { st with wordBuffer := (tok.length % 256) :: tok, inputOffset := off',
                       dStack := (parseSignedNumber st.numericBase 0 tok).1 :: st.dStack })
    ∧ ((parseSignedNumber st.numericBase 0 tok).2 = 0 → st.isCompiling = true →
       0 ≤ st.dataPointer → st.dataPointer % (CellSize : Int) = 0 →
       st.dataPointer + 16 < (dataSpaceSize : Int) →
       interpretLoop cfg efuel inputSize (ifuel + 1) st
         = interpretLoop cfg efuel inputSize ifuel
             { st with wordBuffer := (tok.length % 256) :: tok, inputOffset := off',
                       mem := (st.mem.set (st.dataPointer.toNat / CellSize)
                           cfg.doLiteralXt).set (st.dataPointer.toNat / CellSize + 1)
                           (parseSignedNumber st.numericBase 0 tok).1,
                       dataPointer := st.dataPointer + 16 })
    ∧ ((parseSignedNumber st.numericBase 0 tok).2 ≠ 0 →
       interpretLoop cfg efuel inputSize (ifuel + 1) st
         = .error (.abortEx ("unrecognized word: " ++ bytesToString tok),
             { st with wordBuffer := (tok.length % 256) :: tok, inputOffset := off',
                       dStack := (parseSignedNumber st.numericBase 0 tok).1 :: st.dStack }))
    ∧ (∀ (v : Cell) (ds : List Nat), (∀ c ∈ ds, isValidDigit st.numericBase c = true) →
         parseUnsignedLoop st.numericBase v ds
           = (ds.foldl (fun a c => (a * st.numericBase + digitValue c) % cellMod) v,
              ds.length))
    ∧ (∀ (c : Nat) (cs : List Nat), c = 45 → cs ≠ [] →
         parseSignedNumber st.numericBase 0 (c :: cs)
           = ((cellMod - (parseUnsignedNumber st.numericBase 0 cs).1) % cellMod,
              (parseUnsignedNumber st.numericBase 0 cs).2)) := by
  have hcnt : tok.length % 256 = tok.length := Nat.mod_eq_of_lt hlen
  have hpos : 0 < tok.length := List.length_pos.mpr hne
  have hroomBL : ¬ dStackCount < st.dStack.length + 1 := by
    simp only [dStackCount] at hroom ⊢
    omega
  have hroom2 : ¬ dStackCount < st.dStack.length + 1 + 1 := by
    simp only [dStackCount] at hroom ⊢
    omega
  have htake : List.take (tok.length % 256) tok = tok := by
    rw [hcnt]
    exact List.take_length tok
  have hcond2 : (dStackCount < st.dStack.length + 1 + 1) = False := by
    simp only [dStackCount] at hroom ⊢
    simp
    omega
  have hcommon : interpretLoop cfg efuel inputSize (ifuel + 1) st
      = (if 0 < tok.length % 256 then
           (let pr := parseSignedNumber st.numericBase 0 tok;
            let st3 := { st with wordBuffer := (tok.length % 256) :: tok,
                                 inputOffset := off',
                                 dStack := pr.1 :: st.dStack };
            if pr.2 == 0 then
              if st3.isCompiling then
                match data cfg.doLiteralXt st3 with
                | .ok st4 =>
                    match data pr.1 st4 with
                    | .ok st5 =>
                        interpretLoop cfg efuel inputSize ifuel
                          { st5 with dStack := st.dStack }
                    | .error e => .error e
                | .error e => .error e
              else interpretLoop cfg efuel inputSize ifuel st3
            else
              .error (.abortEx ("unrecognized word: " ++ bytesToString tok), st3))
         else
           .ok { st with wordBuffer := (tok.length % 256) :: tok,
                         inputOffset := off',
                         dStack := st.dStack.tail }) := by
    simp only [interpretLoop]
    rw [if_pos hoff, if_neg hroomBL]
    simp only [← htok, ← hoff', List.length_cons, htake, hfind, hcond2, if_false]
  rw [hcnt] at hcommon
  rw [if_pos hpos] at hcommon
  refine ⟨?_, ?_, ?_, fun v ds h => parseUnsignedLoop_all_valid st.numericBase ds v h, ?_⟩
  · intro hrem0 hcompF
    rw [hcommon]
    rw [if_pos (beq_iff_eq.mpr hrem0)]
    rw [if_neg (by simp [hcompF])]
    rw [hcnt]
  · intro hrem0 hcompT hdp0 hdal hdroom
    rw [hcommon]
    rw [if_pos (beq_iff_eq.mpr hrem0)]
    rw [if_pos (by simp [hcompT])]
    have hC : ((CellSize : Nat) : Int) = 8 := by norm_num [CellSize]
    have h1 := @data_ok cfg.doLiteralXt
        { st with wordBuffer := tok.length :: tok, inputOffset := off',
                         dStack := (parseSignedNumber st.numericBase 0 tok).1 :: st.dStack }
        (by show (0 : Int) ≤ st.dataPointer; omega)
        (by show st.dataPointer % (CellSize : Int) = 0; omega)
        (by show st.dataPointer + (CellSize : Int) < (dataSpaceSize : Int); omega)
    rw [h1]
    dsimp only
    have h2 := @data_ok (parseSignedNumber st.numericBase 0 tok).1
        { st with wordBuffer := tok.length :: tok, inputOffset := off',
                         dStack := (parseSignedNumber st.numericBase 0 tok).1 :: st.dStack,
                         mem := st.mem.set (st.dataPointer.toNat / CellSize) cfg.doLiteralXt,
                         dataPointer := st.dataPointer + (CellSize : Int) }
        (by show (0 : Int) ≤ st.dataPointer + (CellSize : Int); omega)
        (by show (st.dataPointer + (CellSize : Int)) % (CellSize : Int) = 0
            rw [hC] at hdal ⊢
            omega)
        (by show st.dataPointer + (CellSize : Int) + (CellSize : Int) < (dataSpaceSize : Int)
            omega)
    rw [h2]
    dsimp only
    have hidx : ((st.dataPointer + (CellSize : Int)).toNat / CellSize)
        = st.dataPointer.toNat / CellSize + 1 := by
      have h8 : (st.dataPointer + (CellSize : Int)).toNat
          = st.dataPointer.toNat + CellSize := by
        simp only [CellSize]
        omega
      rw [h8]
      exact Nat.add_div_right _ (by simp [CellSize])
    have hdp2 : st.dataPointer + (CellSize : Int) + (CellSize : Int)
        = st.dataPointer + 16 := by
      simp only [CellSize]
      omega
    rw [hidx, hdp2, hcnt]
  · intro hremNe
    rw [hcommon]
    rw [if_neg (by simpa using hremNe)]
    rw [hcnt]
  · intro c cs hc hcs
    subst hc
    simp only [parseSignedNumber]
    rw [if_pos ⟨by simpa using List.length_pos.mpr hcs, trivial⟩]

/-- Witness for C2: interpreting the unknown token "-17" on an empty
dictionary in interpreting state pushes the two's-complement encoding
of -17 and continues the loop. -/
theorem interpret_number_token_witness :
    interpretLoop ⟨9, 9, 0, 9⟩ 1 3 (0 + 1) { st0 with inputBuffer := strBytes "-17" }
      = interpretLoop ⟨9, 9, 0, 9⟩ 1 3 0
          { st0 with inputBuffer := strBytes "-17",
                     wordBuffer := ((strBytes "-17").length % 256) :: strBytes "-17",
                     inputOffset := 3,
                     dStack := (parseSignedNumber 10 0 (strBytes "-17")).1 :: [] } :=
  (interpret_number_token ⟨9, 9, 0, 9⟩ 1 3 0 { st0 with inputBuffer := strBytes "-17" }
      (strBytes "-17") 3 (by decide) (by decide) (by decide) (by decide) (by decide)
      (by decide) (by decide)).1 (by decide) rfl

/-- Claim C4: when INTERPRET raises an AbortException on a line, QUIT's
top loop catches it, prints the message exactly when it is non-empty,
resets the data and return stacks, clears STATE back to interpreting,
and resumes reading the remaining input; PROMPT prints "  ok" only in
interpreting state (hence always right after such a recovery). -/
theorem quit_abort_recovery
    (cfg : Cfg) (efuel ifuel fuel : Nat) (st : MState) (l : String) (rest : List String)
    (msg : String) (stE stE1 : MState)
    (hroom : ¬ dStackCount < st.dStack.length + 1)
    (hab : interpret cfg efuel ifuel { st with inputBuffer := strBytes l, inputOffset := 0 }
        = .error (.abortEx msg, stE))
    (hstE1 : stE1 = if 0 < msg.length
        then { stE with out := stE.out ++ ["<<< Error: " ++ msg ++ " >>>\n"] } else stE) :
    quitLoop cfg efuel ifuel (fuel + 1) st (l :: rest)
      = quitLoop cfg efuel ifuel fuel
          (prompt { stE1 with dStack := [], rStack := [], isCompiling := false }) rest
    ∧ ({ stE1 with dStack := ([] : List Cell), rStack := [], isCompiling := false }
        : MState).dStack = []
    ∧ ({ stE1 with dStack := ([] : List Cell), rStack := [], isCompiling := false }
        : MState).rStack = []
    ∧ ({ stE1 with dStack := ([] : List Cell), rStack := [], isCompiling := false }
        : MState).isCompiling = false
    ∧ (0 < msg.length → stE1.out = stE.out ++ ["<<< Error: " ++ msg ++ " >>>\n"])
    ∧ (msg.length = 0 → stE1.out = stE.out)
    ∧ (∀ s : MState, s.isCompiling = true → prompt s = s)
    ∧ (∀ s : MState, s.isCompiling = false →
         prompt s = { s with out := s.out ++ ["  ok\n"] }) := by
  refine ⟨?_, rfl, rfl, rfl, ?_, ?_, ?_, ?_⟩
  · simp only [quitLoop, quitStep]
    rw [if_neg hroom]
    simp only [hab, ← hstE1]
  · intro hm
    rw [hstE1, if_pos hm]
  · intro hm
    rw [hstE1, if_neg (by omega)]
  · intro s hs
    simp [prompt, hs]
  · intro s hs
    simp [prompt, hs]

/-- The state at the abort point after interpreting the line "xyzzy" on
an empty dictionary: the parsed value 0 is on the stack, the token sits
in WORD's buffer, and the offset is at the end of the line. -/
def exampleAbortState : MState :=
  { st0 with dStack := [0], inputBuffer := strBytes "xyzzy", inputOffset := 5,
             wordBuffer := [5, 120, 121, 122, 122, 121] }

/-- Witness for C4: interpreting "xyzzy" aborts with an "unrecognized
word" message; QUIT prints it, resets both stacks, clears STATE, prompts
and resumes with the remaining input. -/
theorem quit_abort_recovery_witness :
    quitLoop ⟨9, 9, 0, 9⟩ 1 2 (0 + 1) st0 ["xyzzy"]
      = quitLoop ⟨9, 9, 0, 9⟩ 1 2 0
          (prompt { { exampleAbortState with
                      out := exampleAbortState.out
                        ++ ["<<< Error: " ++ "unrecognized word: xyzzy" ++ " >>>\n"] } with
                    dStack := [], rStack := [], isCompiling := false }) []
    ∧ (0 < ("unrecognized word: xyzzy").length →
        ({ exampleAbortState with
           out := exampleAbortState.out
             ++ ["<<< Error: " ++ "unrecognized word: xyzzy" ++ " >>>\n"] } : MState).out
          = exampleAbortState.out
            ++ ["<<< Error: " ++ "unrecognized word: xyzzy" ++ " >>>\n"]) := by
  have h := quit_abort_recovery ⟨9, 9, 0, 9⟩ 1 2 0 st0 "xyzzy" [] "unrecognized word: xyzzy"
      exampleAbortState
      { exampleAbortState with
        out := exampleAbortState.out
          ++ ["<<< Error: " ++ "unrecognized word: xyzzy" ++ " >>>\n"] }
      (by decide) rfl (by rw [if_pos (by decide)])
  exact ⟨h.1, h.2.2.2.2.1⟩

theorem runPrim_state_inputBuffer (st : MState) (p : Prim) :
    (runPrim st p).state.inputBuffer = st.inputBuffer := by
  cases p with
  | pExit => rfl
  | pLit =>
      simp only [runPrim]
      split_ifs
      · rfl
      · cases st.mem.get? st.next <;> rfl
  | pSetDoes => rfl
  | pBl =>
      simp only [runPrim]
      split_ifs <;> rfl
  | pPlus =>
      simp only [runPrim]
      rcases st.dStack with _ | ⟨a, _ | ⟨b, r⟩⟩ <;> rfl

theorem doCreate_state_inputBuffer (d : Definition) (st : MState) :
    (doCreate d st).state.inputBuffer = st.inputBuffer := by
  simp only [doCreate]
  split_ifs <;> rfl

theorem data_state_inputBuffer (x : Cell) (st : MState) :
    (data x st).state.inputBuffer = st.inputBuffer := by
  simp only [data]
  split_ifs <;> rfl

theorem execute_colonLoop_inputBuffer (cfg : Cfg) :
    ∀ fuel : Nat,
      (∀ st xt, (execute cfg fuel st xt).state.inputBuffer = st.inputBuffer)
      ∧ (∀ st, (colonLoop cfg fuel st).state.inputBuffer = st.inputBuffer) := by
  intro fuel
  induction fuel with
  | zero => exact ⟨fun st xt => rfl, fun st => rfl⟩
  | succ fuel ih =>
      obtain ⟨ihE, ihL⟩ := ih
      constructor
      · intro st xt
        simp only [execute]
        cases hget : st.definitions.get? xt with
        | none => simp only [hget]; rfl
        | some d =>
            simp only [hget]
            cases hcode : d.code with
            | prim p => exact runPrim_state_inputBuffer _ p
            | doColonCode => exact ihL _
            | doCreateCode => exact doCreate_state_inputBuffer d _
            | doDoesCode =>
                cases hdc : doCreate d { st with log := st.log ++ [xt] } with
                | error e =>
                    simp only [hdc]
                    have hd := doCreate_state_inputBuffer d { st with log := st.log ++ [xt] }
                    rw [hdc] at hd
                    exact hd
                | ok st2 =>
                    simp only [hdc]
                    have hd := doCreate_state_inputBuffer d { st with log := st.log ++ [xt] }
                    rw [hdc] at hd
                    rw [ihL _]
                    exact hd
      · intro st
        simp only [colonLoop]
        cases hw : st.mem.get? st.next with
        | none => simp only [hw]; rfl
        | some w =>
            simp only [hw]
            by_cases hexit : w = cfg.exitXt
            · rw [if_pos hexit]
              cases hrs : st.rStack <;> rfl
            · rw [if_neg hexit]
              cases hex : execute cfg fuel { st with next := st.next + 1 } w with
              | error e =>
                  simp only [hex]
                  have he := ihE { st with next := st.next + 1 } w
                  rw [hex] at he
                  exact he
              | ok s1 =>
                  simp only [hex]
                  have he := ihE { st with next := st.next + 1 } w
                  rw [hex] at he
                  rw [ihL s1]
                  exact he

theorem res_ok_inputBuffer {r : Res} {s : MState} (heq : r = Except.ok s) :
    s.inputBuffer = r.state.inputBuffer := by
  subst heq; rfl

theorem res_error_inputBuffer {e : Err × MState} {r : Res} (heq : r = Except.error e) :
    (Res.state (Except.error e)).inputBuffer = r.state.inputBuffer := by
  rw [heq]

theorem interpretLoop_state_inputBuffer (cfg : Cfg) (efuel inputSize : Nat) :
    ∀ (ifuel : Nat) (st : MState),
      (interpretLoop cfg efuel inputSize ifuel st).state.inputBuffer = st.inputBuffer := by
  intro ifuel
  induction ifuel with
  | zero => intro st; rfl
  | succ ifuel ih =>
      intro st
      simp only [interpretLoop]
      split_ifs
      all_goals try rfl
      all_goals split
      all_goals try split_ifs
      all_goals try rfl
      all_goals try exact ih _
      all_goals
        split <;>
          rename_i s1 h1 <;>
          first
            | exact (ih _).trans ((res_ok_inputBuffer h1).trans (data_state_inputBuffer _ _))
            | exact (ih _).trans ((res_ok_inputBuffer h1).trans
                ((execute_colonLoop_inputBuffer cfg efuel).1 _ _))
            | exact (res_error_inputBuffer h1).trans (data_state_inputBuffer _ _)
            | exact (res_error_inputBuffer h1).trans
                ((execute_colonLoop_inputBuffer cfg efuel).1 _ _)
            | (split <;> rename_i s2 h2 <;>
                first
                  | exact (ih _).trans ((res_ok_inputBuffer h2).trans
                      ((data_state_inputBuffer _ _).trans
                        ((res_ok_inputBuffer h1).trans (data_state_inputBuffer _ _))))
                  | exact (res_error_inputBuffer h2).trans
                      ((data_state_inputBuffer _ _).trans
                        ((res_ok_inputBuffer h1).trans (data_state_inputBuffer _ _))))

/-- C10: if INTERPRET raises an abort while EVALUATE is running, EVALUATE
does not restore the previously saved input buffer and >IN offset — the
error propagates with the evaluated string still installed as the current
input source (the abort state's input buffer is the evaluated text) —
and the saved source state is restored only when INTERPRET returns
normally. -/
theorem evaluate_no_restore_on_abort
    (cfg : Cfg) (efuel ifuel : Nat) (readByte : Cell → Nat) (st : MState)
    (len caddr : Cell) (rest : List Cell) (e : Err) (stE st2 : MState)
    (hstk : st.dStack = len :: caddr :: rest) :
    (interpret cfg efuel ifuel
        { st with dStack := rest,
                  inputBuffer := (List.range len).map (fun i => readByte (caddr + i)),
                  inputOffset := 0 } = .error (e, stE) →
      evaluate cfg efuel ifuel readByte st = .error (e, stE)
      ∧ stE.inputBuffer = (List.range len).map (fun i => readByte (caddr + i)))
    ∧ (interpret cfg efuel ifuel
        { st with dStack := rest,
                  inputBuffer := (List.range len).map (fun i => readByte (caddr + i)),
                  inputOffset := 0 } = .ok st2 →
      evaluate cfg efuel ifuel readByte st
        = .ok { st2 with inputBuffer := st.inputBuffer,
                         inputOffset := st.inputOffset }) := by
  constructor
  · intro hab
    constructor
    · simp only [evaluate, hstk, hab]
    · have h : (interpret cfg efuel ifuel
            { st with dStack := rest,
                      inputBuffer := (List.range len).map (fun i => readByte (caddr + i)),
                      inputOffset := 0 }).state.inputBuffer
          = (List.range len).map (fun i => readByte (caddr + i)) :=
        interpretLoop_state_inputBuffer cfg efuel _ ifuel _
      rw [hab] at h
      exact h
  · intro hok
    simp only [evaluate, hstk, hok]

/-- Witness for C10: evaluating the 5-byte string "xyzzy" (read from
address 100) on an empty dictionary aborts; the abort escapes EVALUATE
with the evaluated text still installed as the input buffer, with no
restoration of the caller's (empty) input source. -/
theorem evaluate_no_restore_on_abort_witness :
    evaluate ⟨9, 9, 0, 9⟩ 1 2 (fun a => (strBytes "xyzzy").getD (a - 100) 0)
        { st0 with dStack := [5, 100] }
      = .error (.abortEx "unrecognized word: xyzzy", exampleAbortState)
    ∧ exampleAbortState.inputBuffer
        = (List.range 5).map
            (fun i => (strBytes "xyzzy").getD (100 + i - 100) 0) := by
  have h := evaluate_no_restore_on_abort ⟨9, 9, 0, 9⟩ 1 2
      (fun a => (strBytes "xyzzy").getD (a - 100) 0)
      { st0 with dStack := [5, 100] } 5 100 []
      (.abortEx "unrecognized word: xyzzy") exampleAbortState st0 rfl
  exact h.1 rfl

end Cxxforth
